import Mathlib

/-!
Verification of the SWE-bench execution environment (`swe_env.py`).

The development shallowly embeds the pieces of `SWEEnv` that the claims
are about: the path normaliser `make_abs_path`, the virtual editor and
its file toolbox (`write_file`, `scroll_to_line`, `search_file`), the
diff commit loop of `real_write_diff` (compile check, test-path guard,
lint delta), the shell bridge syntax pre-check in `communicate`, the
submission-sentinel extraction `get_submission`, and the interactive
command gate of `parse_command_to_function`.

Python strings are modelled as `List Char`; the container filesystem and
the editor are association lists from absolute paths to contents; the
shell and external tools (`compile`, pylint) are abstract functions.
-/

namespace SweEnv

/-- Python strings are modelled as lists of characters. -/
abbrev Str := List Char

/-- Python `str.lstrip(c)` for a single character: drop leading copies of `c`. -/
def lstripChar (c : Char) (s : Str) : Str := s.dropWhile (· = c)

/-- Python `str.strip(c)` for a single character: drop copies of `c` from both ends. -/
def stripChar (c : Char) (s : Str) : Str :=
  ((s.dropWhile (· = c)).reverse.dropWhile (· = c)).reverse

/-- Python `str.split("/")`: split at every slash, keeping empty fields
(`"".split("/") == [""]`). -/
def splitSlash : Str → List Str
  | [] => [[]]
  | c :: rest =>
    match splitSlash rest with
    | [] => [[]]
    | s :: ss => if c = '/' then [] :: s :: ss else (c :: s) :: ss

/-- POSIX `os.path.join(a, b)`: an absolute `b` discards `a`; otherwise the
parts are glued with a single separator. -/
def osPathJoin (a b : Str) : Str :=
  if b.head? = some '/' then b
  else if a = [] ∨ a.getLast? = some '/' then a ++ b
  else a ++ '/' :: b

/-- Embeds `SWEEnv.make_abs_path` (swe_env.py:722-739): strip surrounding quotes;
if the first path segment names the repo root return the path with the
leading slashes normalised, otherwise `os.path.join("/", file_root, fpath)`. -/
def make_abs_path (file_root fpath : Str) : Str :=
  let f := stripChar '"' (stripChar '\'' fpath)
  let base := (splitSlash f).headD []
  if '/' :: base = file_root then '/' :: lstripChar '/' f
  else osPathJoin (osPathJoin ['/'] file_root) f

/-! ### Lemmas about the string helpers -/

theorem dropWhile_eq_self_of_forall {p : Char → Bool} (s : Str)
    (h : ∀ x ∈ s, ¬ p x) : s.dropWhile p = s := by
  cases s with
  | nil => rfl
  | cons a t =>
    rw [List.dropWhile_cons]
    simp [h a (by simp)]

theorem stripChar_of_not_mem (c : Char) (s : Str) (h : c ∉ s) :
    stripChar c s = s := by
  unfold stripChar
  rw [dropWhile_eq_self_of_forall s (by intro x hx; simp; rintro rfl; exact h hx)]
  rw [dropWhile_eq_self_of_forall s.reverse
    (by intro x hx; simp; rintro rfl; exact h (List.mem_reverse.mp hx))]
  exact List.reverse_reverse s

theorem lstripChar_of_head_ne (c : Char) (s : Str) (h : s.head? ≠ some c) :
    lstripChar c s = s := by
  cases s with
  | nil => rfl
  | cons a t =>
    rw [lstripChar, List.dropWhile_cons]
    simp only [List.head?_cons, ne_eq, Option.some.injEq] at h
    simp [h]

theorem splitSlash_ne_nil (s : Str) : splitSlash s ≠ [] := by
  cases s with
  | nil => simp [splitSlash]
  | cons c rest =>
    rw [splitSlash]
    cases splitSlash rest with
    | nil => simp
    | cons a l => by_cases hc : c = '/' <;> simp [hc]

theorem splitSlash_headD_front (s : Str) : (splitSlash s).headD [] <+: s := by
  induction s with
  | nil => simp [splitSlash]
  | cons c rest ih =>
    rw [splitSlash]
    cases h : splitSlash rest with
    | nil => exact absurd h (splitSlash_ne_nil rest)
    | cons a l =>
      by_cases hc : c = '/'
      · simp [hc]
      · simp only [if_neg hc, List.headD_cons]
        rw [h] at ih
        simp only [List.headD_cons] at ih
        exact List.cons_prefix_cons.mpr ⟨rfl, ih⟩

theorem splitSlash_append_cons (a b : Str) (h : '/' ∉ a) :
    splitSlash (a ++ '/' :: b) = a :: splitSlash b := by
  induction a with
  | nil =>
    simp only [List.nil_append]
    rw [splitSlash]
    cases hb : splitSlash b with
    | nil => exact absurd hb (splitSlash_ne_nil b)
    | cons s ss => simp
  | cons c a' ih =>
    have hc : c ≠ '/' := by rintro rfl; exact h (by simp)
    have h' : '/' ∉ a' := fun hm => h (by simp [hm])
    simp only [List.cons_append]
    rw [splitSlash, ih h']
    simp [hc]

theorem mem_of_getLast?_eq {l : Str} {a : Char} (h : l.getLast? = some a) :
    a ∈ l := by
  induction l with
  | nil => simp at h
  | cons c t ih =>
    cases t with
    | nil => simp [List.getLast?] at h; simp [h]
    | cons d t' =>
      rw [List.getLast?_cons_cons] at h
      exact List.mem_cons_of_mem c (ih h)

/-! ### C1: the path normaliser -/

/-- C1 counterexample: `make_abs_path` does not confine results to the repo
root. With repo root `/repo`, the absolute input `/etc/passwd` is returned
unchanged (because `os.path.join` discards earlier components before an
absolute one), so the result does not start with the repo root; and the
relative input `../secret` yields `/repo/../secret`, which still contains a
`..` segment. -/
theorem make_abs_path_escape_counterexample :
    make_abs_path "/repo".toList "/etc/passwd".toList = "/etc/passwd".toList ∧
    ¬ ("/repo".toList <+: make_abs_path "/repo".toList "/etc/passwd".toList) ∧
    make_abs_path "/repo".toList "../secret".toList = "/repo/../secret".toList ∧
    ['.', '.'] ∈ splitSlash (make_abs_path "/repo".toList "../secret".toList) := by
  refine ⟨by decide, by decide, by decide, by decide⟩

/-- C1 (amended): for inputs that are relative (no leading slash, no
surrounding quotes) and contain no `..` segment, and a repo root `/name`
whose name is a single non-`..` segment, `make_abs_path` does return a path
that starts with the repo root and contains no `..` segment. Absolute
inputs outside the root and inputs containing `..` are not covered: the
counterexample shows they can escape. -/
theorem make_abs_path_confines_relative_paths (name fpath : Str)
    (hq1 : '\'' ∉ fpath) (hq2 : '"' ∉ fpath)
    (hrel : fpath.head? ≠ some '/')
    (hdots : ['.', '.'] ∉ splitSlash fpath)
    (hslash : '/' ∉ name) (hne : name ≠ []) (hname : name ≠ ['.', '.']) :
    ('/' :: name) <+: make_abs_path ('/' :: name) fpath ∧
    ['.', '.'] ∉ splitSlash (make_abs_path ('/' :: name) fpath) := by
  have hstrip : stripChar '"' (stripChar '\'' fpath) = fpath := by
    rw [stripChar_of_not_mem _ _ hq1, stripChar_of_not_mem _ _ hq2]
  rw [make_abs_path]
  simp only [hstrip]
  by_cases hbase : '/' :: (splitSlash fpath).headD [] = '/' :: name
  · rw [if_pos hbase, lstripChar_of_head_ne _ _ hrel]
    have hbn : (splitSlash fpath).headD [] = name := by
      simpa using hbase
    constructor
    · refine List.cons_prefix_cons.mpr ⟨rfl, ?_⟩
      rw [← hbn]; exact splitSlash_headD_front fpath
    · have : splitSlash ('/' :: fpath) = [] :: splitSlash fpath := by
        simpa using splitSlash_append_cons [] fpath (by simp)
      rw [this]
      intro hmem
      rcases List.mem_cons.mp hmem with h | h
      · exact absurd h.symm (by simp)
      · exact hdots h
  · rw [if_neg hbase]
    have hinner : osPathJoin ['/'] ('/' :: name) = '/' :: name := by
      rw [osPathJoin]; simp
    rw [hinner]
    have hlast : ('/' :: name).getLast? ≠ some '/' := by
      intro hl
      exact hslash (by
        cases name with
        | nil => exact absurd hne (by simp)
        | cons d t =>
          rw [List.getLast?_cons_cons] at hl
          exact mem_of_getLast?_eq hl)
    have houter : osPathJoin ('/' :: name) fpath = ('/' :: name) ++ '/' :: fpath := by
      rw [osPathJoin, if_neg (by simpa using hrel), if_neg (by simp [hlast])]
    rw [houter]
    constructor
    · exact List.prefix_append _ _
    · have : ('/' :: name) ++ '/' :: fpath = [] ++ '/' :: (name ++ '/' :: fpath) := by
        simp
      rw [this, splitSlash_append_cons [] _ (by simp),
        splitSlash_append_cons name fpath hslash]
      intro hmem
      rcases List.mem_cons.mp hmem with h | h
      · exact absurd h.symm (by simp)
      · rcases List.mem_cons.mp h with h' | h'
        · exact hname h'.symm
        · exact hdots h'

/-- C1 witness: the amended theorem applied at repo root `/repo` and the
concrete relative input `a/b`. -/
theorem make_abs_path_confines_witness :
    ('/' :: "repo".toList) <+: make_abs_path ('/' :: "repo".toList) "a/b".toList ∧
    ['.', '.'] ∉ splitSlash (make_abs_path ('/' :: "repo".toList) "a/b".toList) :=
  make_abs_path_confines_relative_paths "repo".toList "a/b".toList
    (by decide) (by decide) (by decide) (by decide) (by decide) (by decide) (by decide)

/-! ### The environment state: container filesystem and virtual editor -/

/-- One open-file record of the virtual editor
(`self.editor[abs_path] = {"lines": …, "page": …}`). -/
structure FileRecord where
  lines : Str
  page : Nat
  deriving DecidableEq

/-- Look up a key in an association list (a Python `dict` read `d[k]`,
`none` standing for `KeyError` / `k not in d`). -/
def alistGet {α : Type} (m : List (Str × α)) (k : Str) : Option α :=
  match m with
  | [] => none
  | p :: rest => if p.1 = k then some p.2 else alistGet rest k

/-- Assignment `d[k] = v` on a Python `dict`: replace the binding if present, else append. -/
def alistSet {α : Type} (m : List (Str × α)) (k : Str) (v : α) : List (Str × α) :=
  match m with
  | [] => [(k, v)]
  | p :: rest => if p.1 = k then (k, v) :: rest else p :: alistSet rest k v

/-- Updating one key leaves lookups of other keys unchanged. -/
theorem alistGet_alistSet_ne {α : Type} (m : List (Str × α)) (k q : Str) (v : α)
    (h : q ≠ k) : alistGet (alistSet m k v) q = alistGet m q := by
  induction m with
  | nil => simp [alistGet, alistSet, Ne.symm h]
  | cons p rest ih =>
    by_cases hp : p.1 = k
    · simp [alistSet, alistGet, hp, Ne.symm h]
    · simp [alistSet, alistGet, hp, ih]

/-- The session state visible to the editor toolbox: the repo root
(`self.file_root`), the shell working directory (output of `get_cwd`,
already stripped), the container filesystem reached through the shell, and
the open-file mapping `self.editor`. -/
structure EnvState where
  fileRoot : Str
  cwd : Str
  disk : List (Str × Str)
  editor : List (Str × FileRecord)
  deriving DecidableEq

/-- The path-resolution preamble repeated by every toolbox function
(e.g. swe_env.py:1107-1113): `make_abs_path`, then compare with the shell
working directory and re-run `make_abs_path` either directly or after
`os.path.join(cwd, abs_path)`. -/
def resolve_path (st : EnvState) (file_path : Str) : Str :=
  let abs1 := make_abs_path st.fileRoot file_path
  if st.cwd.isPrefixOf abs1 then make_abs_path st.fileRoot abs1
  else make_abs_path st.fileRoot (osPathJoin st.cwd abs1)

/-- Embeds `SWEEnv.file_exists` (swe_env.py:742-746): `test -f` on
`make_abs_path(fpath)`; in the model, membership of the disk map. -/
def file_exists (st : EnvState) (fpath : Str) : Bool :=
  (alistGet st.disk (make_abs_path st.fileRoot fpath)).isSome

/-- Result of a toolbox call: the returned message, or the message of the
exception the call raised (the dispatcher turns both into observation
strings). -/
inductive WRes where
  | success (msg : Str)
  | failure (msg : Str)
  deriving DecidableEq

/-- Returns `true` iff the call returned normally. -/
def WRes.isOk : WRes → Bool
  | .success _ => true
  | .failure _ => false

/-! ### C3: `write_file` -/

/-- Message raised by `write_file` when the target does not exist, after the
outer handler re-wraps it (swe_env.py:1117,1133). -/
def write_missing_msg (abs_path : Str) : Str :=
  "Failed to write to file: ".toList ++ abs_path ++
    ". Error: Could not write to file, file does not exist: ".toList ++ abs_path

/-- Message raised by `write_file` when `self.editor[abs_path]` raises
`KeyError` (whose `str` is the quoted key), re-wrapped by the outer handler
(swe_env.py:1125,1133). -/
def write_keyerror_msg (abs_path : Str) : Str :=
  "Failed to write to file: ".toList ++ abs_path ++ ". Error: '".toList ++
    abs_path ++ "'".toList

/-- Success message of `write_file` (swe_env.py:1126). -/
def write_ok_msg (abs_path : Str) : Str :=
  "Successfully wrote to file ".toList ++ abs_path

/-- Embeds `SWEEnv.write_file` (swe_env.py:1103-1133). Requires the resolved path
to exist, then overwrites it through the shell (the heredoc round-trip is
abstracted to a disk update that always succeeds with return code 0), then
executes `self.editor[abs_path]["lines"] = content` — which raises
`KeyError` when the file is not open, *after* the disk write. -/
def write_file (st : EnvState) (file_path content : Str) : EnvState × WRes :=
  let abs_path := resolve_path st file_path
  if (alistGet st.disk abs_path).isSome = false then
    (st, .failure (write_missing_msg abs_path))
  else
    let st1 := { st with disk := alistSet st.disk abs_path content }
    match alistGet st1.editor abs_path with
    | none => (st1, .failure (write_keyerror_msg abs_path))
    | some r =>
      ({ st1 with editor := alistSet st1.editor abs_path { r with lines := content } },
       .success (write_ok_msg abs_path))

/-- A state whose disk holds `/repo/a.py` while the editor is empty. -/
def wfState : EnvState :=
  ⟨"/repo".toList, "/repo".toList, [("/repo/a.py".toList, "old".toList)], []⟩

/-- C3 counterexample: the claim says `write_file` fails exactly when the
path does not exist. In `wfState` the file `/repo/a.py` exists on disk but
is not open in the editor, and `write_file` nevertheless fails (the
unconditional editor refresh raises `KeyError`) — after having already
overwritten the file on disk. -/
theorem write_file_counterexample :
    alistGet wfState.disk "/repo/a.py".toList = some "old".toList ∧
    (write_file wfState "/repo/a.py".toList "new".toList).2 =
      WRes.failure (write_keyerror_msg "/repo/a.py".toList) ∧
    (write_file wfState "/repo/a.py".toList "new".toList).1.disk =
      [("/repo/a.py".toList, "new".toList)] := by
  refine ⟨by decide, by decide, by decide⟩

/-- C3 (amended): `write_file p content` succeeds exactly when the resolved
path both exists on disk and has an open editor record; then it overwrites
the disk entry and refreshes the record to `content`. It fails when the
path does not exist (no write issued), and it also fails when the path
exists but is not open — in which case the disk write is still issued
before the failure is reported. -/
theorem write_file_spec (st : EnvState) (p c : Str) :
    (alistGet st.disk (resolve_path st p) = none →
      write_file st p c = (st, .failure (write_missing_msg (resolve_path st p)))) ∧
    (∀ old, alistGet st.disk (resolve_path st p) = some old →
      alistGet st.editor (resolve_path st p) = none →
      write_file st p c =
        ({ st with disk := alistSet st.disk (resolve_path st p) c },
         .failure (write_keyerror_msg (resolve_path st p)))) ∧
    (∀ old r, alistGet st.disk (resolve_path st p) = some old →
      alistGet st.editor (resolve_path st p) = some r →
      write_file st p c =
        ({ st with disk := alistSet st.disk (resolve_path st p) c,
                   editor := alistSet st.editor (resolve_path st p) { r with lines := c } },
         .success (write_ok_msg (resolve_path st p)))) := by
  refine ⟨?_, ?_, ?_⟩
  · intro h
    rw [write_file]
    simp [h]
  · intro old hd he
    rw [write_file]
    simp only [hd, Option.isSome_some]
    simp [he]
  · intro old r hd he
    rw [write_file]
    simp only [hd, Option.isSome_some]
    simp [he]

/-- A state whose disk holds `/repo/a.py` and whose editor has it open. -/
def wfStateOpen : EnvState :=
  ⟨"/repo".toList, "/repo".toList, [("/repo/a.py".toList, "old".toList)],
   [("/repo/a.py".toList, ⟨"old".toList, 0⟩)]⟩

/-- C3 witness: the amended theorem applied to `wfStateOpen`, where the
open-file write succeeds and refreshes both disk and editor. -/
theorem write_file_spec_witness :
    write_file wfStateOpen "/repo/a.py".toList "new".toList =
      ({ wfStateOpen with
          disk := alistSet wfStateOpen.disk (resolve_path wfStateOpen "/repo/a.py".toList) "new".toList,
          editor := alistSet wfStateOpen.editor (resolve_path wfStateOpen "/repo/a.py".toList)
            { lines := "new".toList, page := 0 } },
       WRes.success (write_ok_msg (resolve_path wfStateOpen "/repo/a.py".toList))) :=
  (write_file_spec wfStateOpen "/repo/a.py".toList "new".toList).2.2
    "old".toList ⟨"old".toList, 0⟩ (by decide) (by decide)

/-! ### C6: `scroll_to_line` -/

/-- Python `str.splitlines()` restricted to `\n` separators: a trailing
newline does not produce a final empty line (`"a\n".splitlines() == ["a"]`,
`"".splitlines() == []`). -/
def splitlines : Str → List Str
  | [] => []
  | c :: rest =>
    if c = '\n' then [] :: splitlines rest
    else
      match splitlines rest with
      | [] => [[c]]
      | l :: ls => (c :: l) :: ls

/-- Embeds `SWEEnv.PAGE_SIZE` (swe_env.py:884). -/
def PAGE_SIZE : Nat := 200

/-- Failure message of the scroll commands on a missing file. -/
def scroll_missing_msg (abs_path : Str) : Str :=
  "Could not scroll in file, file does not exist: ".toList ++ abs_path

/-- Failure message of the scroll commands on a file that is not open. -/
def scroll_not_open_msg (abs_path : Str) : Str :=
  "Could not scroll in file, file is not open: ".toList ++ abs_path

/-- Failure message of `scroll_to_line` on an out-of-range line number
(swe_env.py:1071). -/
def scroll_invalid_msg (line_number total_lines : Int) : Str :=
  "Invalid line number: ".toList ++ (toString line_number).toList ++
    ". Line number should be between 1 and ".toList ++
    (toString total_lines).toList ++ ".".toList

/-- Success message of `scroll_to_line` (swe_env.py:1076-1077). -/
def scroll_ok_msg (line_number : Int) (abs_path : Str) (window_number : Nat) : Str :=
  "Scrolled to window containing line ".toList ++ (toString line_number).toList ++
    " in file ".toList ++ abs_path ++ ". Window starts at line ".toList ++
    (toString (window_number * PAGE_SIZE + 1)).toList ++ ".".toList

/-- Embeds `SWEEnv.scroll_to_line` (swe_env.py:1014-1077): resolve the path, check
disk existence and editor membership, then for a 1-indexed in-range line
number set the page to `(line_number - 1) // PAGE_SIZE`; otherwise raise
without touching the page. -/
def scroll_to_line (st : EnvState) (file_path : Str) (line_number : Int) :
    EnvState × WRes :=
  let abs_path := resolve_path st file_path
  if file_exists st abs_path = false then
    (st, .failure (scroll_missing_msg abs_path))
  else
    match alistGet st.editor abs_path with
    | none => (st, .failure (scroll_not_open_msg abs_path))
    | some r =>
      let total_lines : Int := (splitlines r.lines).length
      if line_number < 1 ∨ line_number > total_lines then
        (st, .failure (scroll_invalid_msg line_number total_lines))
      else
        let window_number := (line_number - 1).toNat / PAGE_SIZE
        ({ st with editor := alistSet st.editor abs_path { r with page := window_number } },
         .success (scroll_ok_msg line_number abs_path window_number))

/-- C6: for an open file that exists, `scroll_to_line` with `1 ≤ n ≤
line_count` sets the page to `(n - 1) / PAGE_SIZE` (`PAGE_SIZE = 200`), and
for `n < 1` or `n > line_count` it fails with the invalid-line-number error
and leaves the state (hence the page) unchanged. -/
theorem scroll_to_line_spec (st : EnvState) (p : Str) (n : Int) (r : FileRecord)
    (hex : file_exists st (resolve_path st p) = true)
    (hopen : alistGet st.editor (resolve_path st p) = some r) :
    (1 ≤ n → n ≤ ((splitlines r.lines).length : Int) →
      scroll_to_line st p n =
        ({ st with editor := alistSet st.editor (resolve_path st p) ({ r with page := (n - 1).toNat / PAGE_SIZE }) },
         .success (scroll_ok_msg n (resolve_path st p) ((n - 1).toNat / PAGE_SIZE)))) ∧
    ((n < 1 ∨ n > ((splitlines r.lines).length : Int)) →
      scroll_to_line st p n =
        (st, .failure (scroll_invalid_msg n (splitlines r.lines).length))) := by
  constructor
  · intro h1 h2
    have hc : ¬(n < 1 ∨ n > ((splitlines r.lines).length : Int)) := by omega
    simp [scroll_to_line, hex, hopen, hc]
  · intro h
    simp only [scroll_to_line, hex, hopen]
    rw [if_neg (by simp), if_pos h]

/-- A state with `/repo/a.py` on disk and open in the editor with a
contents of three lines. -/
def scrollState : EnvState :=
  ⟨"/repo".toList, "/repo".toList, [("/repo/a.py".toList, "l1\nl2\nl3".toList)],
   [("/repo/a.py".toList, ⟨"l1\nl2\nl3".toList, 0⟩)]⟩

/-- C6 witness: scrolling to line 2 of a three-line open file lands on page
`(2-1)/200 = 0`, and scrolling to line 7 fails with the invalid-line
message leaving the state unchanged. -/
theorem scroll_to_line_spec_witness :
    scroll_to_line scrollState "/repo/a.py".toList 2 =
      ({ scrollState with
          editor := alistSet scrollState.editor (resolve_path scrollState "/repo/a.py".toList)
            { lines := "l1\nl2\nl3".toList, page := (2 - 1 : Int).toNat / PAGE_SIZE } },
       .success (scroll_ok_msg 2 (resolve_path scrollState "/repo/a.py".toList)
         ((2 - 1 : Int).toNat / PAGE_SIZE))) ∧
    scroll_to_line scrollState "/repo/a.py".toList 7 =
      (scrollState, .failure (scroll_invalid_msg 7 3)) := by
  constructor
  · exact (scroll_to_line_spec scrollState "/repo/a.py".toList 2
      ⟨"l1\nl2\nl3".toList, 0⟩ (by decide) (by decide)).1 (by decide) (by decide)
  · exact (scroll_to_line_spec scrollState "/repo/a.py".toList 7
      ⟨"l1\nl2\nl3".toList, 0⟩ (by decide) (by decide)).2 (by decide)

/-! ### C10: `search_file` -/

/-- Python substring test `needle in hay`. -/
def containsSub (needle hay : Str) : Bool :=
  hay.tails.any (fun t => needle.isPrefixOf t)

/-- Join a list of strings with newlines (`"\n".join(lines)`). -/
def joinNL (lines : List Str) : Str := List.intercalate ['\n'] lines

/-- Embeds `SWEEnv._capture_window` (swe_env.py:1672-1683): ten lines of context on
each side of a matching line. -/
def capture_window (lines : List Str) (index window_size : Nat) : Str :=
  let start_line := index - window_size
  let end_line := if index + window_size ≤ lines.length then index + window_size
    else lines.length
  let content_lines := joinNL ((lines.drop start_line).take (end_line - start_line))
  "\nMatch found on line: ".toList ++ (toString index).toList ++ "\n".toList ++
    content_lines ++ "\n".toList

/-- Failure message of `search_file` on a file that is not open
(swe_env.py:1726). -/
def search_not_open_msg (abs_path : Str) : Str :=
  "Could not find in file, file is not open: ".toList ++ abs_path

/-- Embeds `SWEEnv.search_file` (swe_env.py:1685-1746): resolve the path, require
an open editor record, and scan only the in-memory `editor[...]["lines"]`
copy — the disk is never consulted. -/
def search_file (st : EnvState) (search_term file_path : Str) : WRes :=
  let abs_path := resolve_path st file_path
  match alistGet st.editor abs_path with
  | none => .failure (search_not_open_msg abs_path)
  | some r =>
    let content_lines := splitlines r.lines
    let found := (content_lines.enum.filter (fun q => containsSub search_term q.2)).map
      (fun q => capture_window content_lines q.1 10)
    if found = [] then
      .success ("No matches found for \"".toList ++ search_term ++ "\" in ".toList ++ abs_path)
    else if found.length > 10 then
      .success ("More than 10 lines matched for \"".toList ++ search_term ++
        "\" in ".toList ++ abs_path ++ ". Please narrow your search.".toList)
    else
      .success ("Found ".toList ++ (toString found.length).toList ++
        " matches for \"".toList ++ search_term ++ "\" in ".toList ++ abs_path ++
        ":\n ".toList ++ joinNL found)

/-- C10: `search_file` reads only the in-memory editor copy — its result is
unchanged under arbitrary replacement of the disk — and it fails with the
file-is-not-open error whenever the resolved path has no editor record,
even when that path exists on disk. -/
theorem search_file_editor_only (st : EnvState) (d' : List (Str × Str))
    (term p : Str) :
    search_file { st with disk := d' } term p = search_file st term p ∧
    (alistGet st.editor (resolve_path st p) = none →
      search_file st term p = .failure (search_not_open_msg (resolve_path st p))) := by
  constructor
  · rfl
  · intro h
    rw [search_file]
    simp [h]

/-- C10 witness: with `/repo/a.py` on disk but not open (state `wfState`),
`search_file` fails with the not-open error, and its result is insensitive
to the disk contents. -/
theorem search_file_editor_only_witness :
    search_file { wfState with disk := [] } "old".toList "/repo/a.py".toList =
      search_file wfState "old".toList "/repo/a.py".toList ∧
    search_file wfState "old".toList "/repo/a.py".toList =
      .failure (search_not_open_msg (resolve_path wfState "/repo/a.py".toList)) :=
  ⟨(search_file_editor_only wfState [] "old".toList "/repo/a.py".toList).1,
   (search_file_editor_only wfState [] "old".toList "/repo/a.py".toList).2 (by decide)⟩

/-! ### The diff commit loop of `real_write_diff` -/

/-- One pylint JSON record, restricted to the fields `real_write_diff`
reads (`type`, `message`, `line`, `column`). -/
structure LintRes where
  kind : Str
  message : Str
  line : Nat
  column : Nat
  deriving DecidableEq

/-- One entry of `result["success"]`: the tuple
`(tgt_file_abs, new_contents, old_contents)` produced by
`apply_file_context_diffs` (module `unified_diff.udiff`, outside this file). -/
structure ApplySuccess where
  path : Str
  newContent : Str
  oldContent : Str
  deriving DecidableEq

/-- The lint-delta computation of `real_write_diff` (swe_env.py:1389-1393).
Both `before_results` and `after_results` are computed from `result[1]` —
the NEW contents — so the delta compares the new lint results with
themselves. `check_lint` abstracts the pylint run of `SWEEnv.check_lint`
(swe_env.py:799-816, enabled checks E0602 and E1101). -/
def lint_delta (check_lint : Str → List LintRes) (result : ApplySuccess) : List LintRes :=
  let before_results := check_lint result.newContent
  let after_results := check_lint result.newContent
  after_results.filter (fun x => decide (x ∉ before_results))

/-- The delta the claim (and the spec) describe: warnings present in the
new contents but not in the old contents. Modelled from the spec for
comparison with `lint_delta`. -/
def lint_delta_claimed (check_lint : Str → List LintRes) (result : ApplySuccess) :
    List LintRes :=
  (check_lint result.newContent).filter
    (fun x => decide (x ∉ check_lint result.oldContent))

/-- A lint pass that reports one undefined-name warning on the new contents
and nothing on the old contents. -/
def lintOnNew : Str → List LintRes := fun s =>
  if s = "print(u)".toList then [⟨"error".toList, "Undefined variable u".toList, 1, 6⟩]
  else []

/-- A success entry whose new contents introduce a lint warning. -/
def lintEntry : ApplySuccess :=
  ⟨"/repo/a.py".toList, "print(u)".toList, "x = 1".toList⟩

/-- C2 (code bug): the code passes `result[1]` (the new contents) to
`check_lint` for *both* `before_results` and `after_results`, so the
reported delta is empty for every lint pass and every entry — whereas the
delta the claim describes (new minus old) is non-empty at the concrete
failing input `lintEntry` under the lint pass `lintOnNew`. -/
theorem lint_delta_always_empty :
    (∀ check_lint result, lint_delta check_lint result = []) ∧
    lint_delta_claimed lintOnNew lintEntry =
      [⟨"error".toList, "Undefined variable u".toList, 1, 6⟩] ∧
    lint_delta lintOnNew lintEntry = [] := by
  refine ⟨?_, by decide, by decide⟩
  intro check_lint result
  rw [lint_delta, List.filter_eq_nil_iff]
  intro a ha
  simp [ha]

/-- Embeds `SWEEnv.check_path_for_tests` (swe_env.py:1351-1355): `"/tests/" in
file_path`. -/
def check_path_for_tests (file_path : Str) : Bool :=
  containsSub "/tests/".toList file_path

/-- The test-path refusal observation (swe_env.py:1388). -/
def tests_err_msg : Str :=
  ("Error applying diff: tried to edit tests. Please remember to create a " ++
   "reproduce.py file if you would like to write tests.").toList

/-- Computes `"\n".join(s)` for a *string* `s` (as `real_write_diff` does to
the editor contents): the characters interleaved with newlines. -/
def interNL (s : Str) : Str := List.intersperse '\n' s

/-- The per-file commit loop of `real_write_diff` (swe_env.py:1378-1402),
run when no hunk failed. For each success entry in order: syntactic
`compile` check (abstracted by `compileCheck`, returning `some repr` when
it raises), the `/tests/` path guard, the lint delta, the read of
`self.editor[result[0]]["lines"]` (raising `KeyError` when not open), the
`write_file` call, and the assert that the editor contents changed.
`Except.error` carries the observation of an early `return` or the message
of a raised exception. -/
def applySuccesses (compileCheck : Str → Option Str) (check_lint : Str → List LintRes) :
    EnvState → List ApplySuccess → List Str → List LintRes →
    EnvState × Except Str (List Str × List LintRes)
  | st, [], file_paths, diff_results => (st, .ok (file_paths, diff_results))
  | st, result :: rest, file_paths, _ =>
    match compileCheck result.newContent with
    | some e => (st, .error ("Error applying diff: \n".toList ++ e))
    | none =>
      if check_path_for_tests result.path then (st, .error tests_err_msg)
      else
        let before_results := check_lint result.newContent
        let after_results := check_lint result.newContent
        let diff_results := after_results.filter (fun x => decide (x ∉ before_results))
        match alistGet st.editor result.path with
        | none => (st, .error ("'".toList ++ result.path ++ "'".toList))
        | some oldRec =>
          match write_file st result.path result.newContent with
          | (st1, .failure m) => (st1, .error m)
          | (st1, .success _) =>
            match alistGet st1.editor result.path with
            | none => (st1, .error ("'".toList ++ result.path ++ "'".toList))
            | some newRec =>
              if interNL oldRec.lines = interNL newRec.lines then
                (st1, .error "AssertionError".toList)
              else
                applySuccesses compileCheck check_lint st1 rest
                  (file_paths ++ [result.path]) diff_results

/-- One line of the (dead) lint observation (swe_env.py:1410). -/
def lint_line_msg (result_new : Str) (rst : LintRes) : Str :=
  rst.kind ++ ": ".toList ++ rst.message ++ " on line ".toList ++
    (toString rst.line).toList ++ " column ".toList ++ (toString rst.column).toList ++
    ". Line ".toList ++ ((splitlines result_new).getD (rst.line - 1) []) ++ " \n".toList

/-- Embeds `SWEEnv.real_write_diff` (swe_env.py:1358-1416) after the in-memory
diff application: `successes` and `failures` abstract the outcome of
`extract_all_diffs` / `apply_file_context_diffs` (module
`unified_diff.udiff`, outside this file); `failures` carries each failure's
message. The model initialises the loop accumulators to `[]`; Python would
instead raise `NameError` on the `diff_results` read when `successes` is
empty, an edge case no claim touches. -/
def real_write_diff (compileCheck : Str → Option Str) (check_lint : Str → List LintRes)
    (st : EnvState) (successes : List ApplySuccess) (failures : List Str) :
    EnvState × Str :=
  if failures.length = 0 then
    match applySuccesses compileCheck check_lint st successes [] [] with
    | (st1, .error m) => (st1, m)
    | (st1, .ok (file_paths, diff_results)) =>
      let paths := List.intercalate ", ".toList file_paths
      if diff_results.isEmpty = false then
        let result_new := (successes.getLastD ⟨[], [], []⟩).newContent
        let lint_error_message := List.flatten (diff_results.map (lint_line_msg result_new))
        (st1, "Successfully edited file(s): ".toList ++ paths ++
          (". Please review the new contents of the files. Your change introduced " ++
           "the following linting errors. Please address them before you submit. \n").toList ++
          lint_error_message)
      else
        (st1, "Successfully edited file(s): ".toList ++ paths ++
          ". Please review the new contents of the files.".toList)
  else
    (st, List.intercalate ['\n'] ("Failed to edit file".toList :: failures))

/-! ### Invariants of the commit loop -/

/-- The call `write_file` never changes the repo root or the working directory. -/
theorem write_file_preserves_roots (st : EnvState) (p c : Str) :
    (write_file st p c).1.fileRoot = st.fileRoot ∧
    (write_file st p c).1.cwd = st.cwd := by
  simp only [write_file]
  split
  · exact ⟨rfl, rfl⟩
  · split
    · exact ⟨rfl, rfl⟩
    · exact ⟨rfl, rfl⟩

/-- The call `write_file` changes the disk at most at the resolved target path. -/
theorem write_file_disk_at (st : EnvState) (p c q : Str)
    (h : q ≠ resolve_path st p) :
    alistGet (write_file st p c).1.disk q = alistGet st.disk q := by
  simp only [write_file]
  split
  · rfl
  · split
    · exact alistGet_alistSet_ne st.disk (resolve_path st p) q c h
    · exact alistGet_alistSet_ne st.disk (resolve_path st p) q c h

/-- The helper `resolve_path` only reads the repo root and the working directory. -/
theorem resolve_path_eq_of_roots (st st' : EnvState) (p : Str)
    (h1 : st'.fileRoot = st.fileRoot) (h2 : st'.cwd = st.cwd) :
    resolve_path st' p = resolve_path st p := by
  simp only [resolve_path, h1, h2]

/-- The commit loop never changes the repo root or the working directory. -/
theorem applySuccesses_preserves_roots (cc : Str → Option Str)
    (cl : Str → List LintRes) :
    ∀ (succs : List ApplySuccess) (st : EnvState) (fps : List Str)
      (dr : List LintRes),
    (applySuccesses cc cl st succs fps dr).1.fileRoot = st.fileRoot ∧
    (applySuccesses cc cl st succs fps dr).1.cwd = st.cwd := by
  intro succs
  induction succs with
  | nil => intro st fps dr; exact ⟨rfl, rfl⟩
  | cons result rest ih =>
    intro st fps dr
    simp only [applySuccesses]
    split
    · exact ⟨rfl, rfl⟩
    · split
      · exact ⟨rfl, rfl⟩
      · split
        · exact ⟨rfl, rfl⟩
        · split
          · next st1 m heq =>
            have := write_file_preserves_roots st result.path result.newContent
            rw [heq] at this
            exact this
          · next st1 m heq =>
            have hw := write_file_preserves_roots st result.path result.newContent
            rw [heq] at hw
            split
            · exact hw
            · split
              · exact hw
              · exact ⟨(ih st1 _ _).1.trans hw.1, (ih st1 _ _).2.trans hw.2⟩

/-- The commit loop leaves the disk unchanged at every path outside the
resolved targets of the entries that pass the compile check. -/
theorem applySuccesses_disk_outside (cc : Str → Option Str)
    (cl : Str → List LintRes) :
    ∀ (succs : List ApplySuccess) (st : EnvState) (fps : List Str)
      (dr : List LintRes) (q : Str),
    q ∉ (succs.filter (fun e => (cc e.newContent).isNone)).map
        (fun e => resolve_path st e.path) →
    alistGet (applySuccesses cc cl st succs fps dr).1.disk q =
      alistGet st.disk q := by
  intro succs
  induction succs with
  | nil => intro st fps dr q hq; rfl
  | cons result rest ih =>
    intro st fps dr q hq
    simp only [applySuccesses]
    split
    · rfl
    next hcc =>
      have hfil : List.filter (fun e => (cc e.newContent).isNone) (result :: rest)
          = result :: List.filter (fun e => (cc e.newContent).isNone) rest := by
        simp [List.filter_cons, hcc]
      rw [hfil, List.map_cons] at hq
      simp only [List.mem_cons, not_or] at hq
      obtain ⟨hqne, hqrest⟩ := hq
      split
      · rfl
      · split
        · rfl
        next oldRec heq1 =>
          have hw := write_file_disk_at st result.path result.newContent q hqne
          split
          next st1 m heqw =>
            rw [heqw] at hw
            exact hw
          next st1 m heqw =>
            have hw1 : alistGet st1.disk q = alistGet st.disk q := by
              rw [heqw] at hw; exact hw
            have hroots := write_file_preserves_roots st result.path result.newContent
            rw [heqw] at hroots
            split
            · exact hw1
            next newRec heq2 =>
              split
              · exact hw1
              · have hfun : (fun (e : ApplySuccess) => resolve_path st1 e.path) =
                    (fun e => resolve_path st e.path) :=
                  funext (fun e =>
                    resolve_path_eq_of_roots st st1 e.path hroots.1 hroots.2)
                have hq1 : q ∉ (rest.filter (fun e => (cc e.newContent).isNone)).map
                    (fun e => resolve_path st1 e.path) := by
                  rw [hfun]; exact hqrest
                rw [ih st1 (fps ++ [result.path]) _ q hq1, hw1]

/-- If the commit loop returns `.ok`, every success entry passed the
test-path guard. -/
theorem applySuccesses_ok_no_tests (cc : Str → Option Str)
    (cl : Str → List LintRes) :
    ∀ (succs : List ApplySuccess) (st : EnvState) (fps : List Str)
      (dr : List LintRes) (st1 : EnvState) (res : List Str × List LintRes),
    applySuccesses cc cl st succs fps dr = (st1, .ok res) →
    ∀ e ∈ succs, check_path_for_tests e.path = false := by
  intro succs
  induction succs with
  | nil => intro st fps dr st1 res h; simp
  | cons result rest ih =>
    intro st fps dr st1 res h
    simp only [applySuccesses] at h
    split at h
    · exact absurd h (by simp)
    · split at h
      · exact absurd h (by simp)
      next htest =>
        split at h
        · exact absurd h (by simp)
        · split at h
          · exact absurd h (by simp)
          · split at h
            · exact absurd h (by simp)
            · split at h
              · exact absurd h (by simp)
              · intro e he
                rcases List.mem_cons.mp he with rfl | he'
                · exact Bool.not_eq_true _ ▸ (by simpa using htest)
                · exact ih _ _ _ _ _ h e he'

/-! ### C4 and C5: the test-path guard and the compile gate -/

/-- Compile check that rejects every contents, like `compile` on a
syntactically invalid file. -/
def ccReject : Str → Option Str := fun _ => some "SyntaxError(invalid)".toList

/-- Compile check that accepts every contents. -/
def ccNone : Str → Option Str := fun _ => none

/-- Lint pass that reports nothing. -/
def clNone : Str → List LintRes := fun _ => []

/-- State with a test file on disk and open in the editor. -/
def testsState : EnvState :=
  ⟨"/repo".toList, "/repo".toList,
   [("/repo/tests/test_x.py".toList, "old".toList)],
   [("/repo/tests/test_x.py".toList, ⟨"old".toList, 0⟩)]⟩

/-- A success entry targeting a `/tests/` path with non-compiling contents. -/
def testsEntryBad : ApplySuccess :=
  ⟨"/repo/tests/test_x.py".toList, "def f(:".toList, "old".toList⟩

/-- A success entry targeting a `/tests/` path with compiling contents. -/
def testsEntryOk : ApplySuccess :=
  ⟨"/repo/tests/test_x.py".toList, "x = 2".toList, "old".toList⟩

/-- C4 counterexample: the claim says every diff targeting a `/tests/` path
returns the test-path error. But the compile check runs *before* the
test-path guard (swe_env.py:1382-1388): for `testsEntryBad` — a `/tests/`
target whose new contents do not compile — the observation is the
compile error, not the test-path error (the file is indeed unchanged). -/
theorem tests_guard_counterexample :
    check_path_for_tests testsEntryBad.path = true ∧
    applySuccesses ccReject clNone testsState [testsEntryBad] [] [] =
      (testsState, .error ("Error applying diff: \n".toList ++
        "SyntaxError(invalid)".toList)) ∧
    "Error applying diff: \n".toList ++ "SyntaxError(invalid)".toList ≠
      tests_err_msg := by
  refine ⟨by decide, rfl, by decide⟩

/-- C4 (amended): when the commit loop reaches a success entry whose target
path contains `/tests/` and whose new contents pass the compile check, it
returns the test-path error observation with the state — hence the file on
disk — unchanged from that point; and a run that returns `.ok` contains no
`/tests/` entry at all. (When the new contents fail the compile check the
compile error is returned first; the file is still not written.) -/
theorem tests_guard (cc : Str → Option Str) (cl : Str → List LintRes)
    (st : EnvState) (succs : List ApplySuccess) (fps : List Str)
    (dr : List LintRes) :
    (∀ e rest, succs = e :: rest → cc e.newContent = none →
      check_path_for_tests e.path = true →
      applySuccesses cc cl st succs fps dr = (st, .error tests_err_msg)) ∧
    (∀ st1 res, applySuccesses cc cl st succs fps dr = (st1, .ok res) →
      ∀ e ∈ succs, check_path_for_tests e.path = false) := by
  constructor
  · rintro e rest rfl hcc htest
    simp only [applySuccesses, hcc, htest]
    rfl
  · intro st1 res h
    exact applySuccesses_ok_no_tests cc cl succs st fps dr st1 res h

/-- C4 witness: the amended theorem applied to the compiling test-path
entry `testsEntryOk`: the loop refuses with the test-path error and the
state is unchanged. -/
theorem tests_guard_witness :
    applySuccesses ccNone clNone testsState [testsEntryOk] [] [] =
      (testsState, .error tests_err_msg) :=
  (tests_guard ccNone clNone testsState [testsEntryOk] [] []).1
    testsEntryOk [] rfl (by decide) (by decide)

/-- An ordinary (non-test) success entry with non-compiling new contents. -/
def entryBad : ApplySuccess :=
  ⟨"/repo/a.py".toList, "def f(:".toList, "old".toList⟩

/-- C5: (i) the commit loop changes the disk only at resolved target paths
of entries that passed the compile check — every committed file compiled;
(ii) when the compile check on the first entry's new contents raises, the
loop returns the `Error applying diff:` observation with the state — hence
every file — unchanged. -/
theorem diff_compile_gate (cc : Str → Option Str) (cl : Str → List LintRes)
    (st : EnvState) (succs : List ApplySuccess) (fps : List Str)
    (dr : List LintRes) :
    (∀ q, q ∉ (succs.filter (fun e => (cc e.newContent).isNone)).map
        (fun e => resolve_path st e.path) →
      alistGet (applySuccesses cc cl st succs fps dr).1.disk q =
        alistGet st.disk q) ∧
    (∀ e rest err, succs = e :: rest → cc e.newContent = some err →
      applySuccesses cc cl st succs fps dr =
        (st, .error ("Error applying diff: \n".toList ++ err))) := by
  constructor
  · intro q hq
    exact applySuccesses_disk_outside cc cl succs st fps dr q hq
  · rintro e rest err rfl hcc
    simp only [applySuccesses, hcc]

/-- C5 witness: the compile gate applied to `entryBad` under the rejecting
compile check: the loop stops with the compile-error observation and the
state is unchanged; and the disk outside the (empty) set of compile-passing
targets — e.g. at `/repo/a.py` — is untouched. -/
theorem diff_compile_gate_witness :
    applySuccesses ccReject clNone wfStateOpen [entryBad] [] [] =
      (wfStateOpen, .error ("Error applying diff: \n".toList ++
        "SyntaxError(invalid)".toList)) ∧
    alistGet (applySuccesses ccReject clNone wfStateOpen [entryBad] [] []).1.disk
        "/repo/a.py".toList = alistGet wfStateOpen.disk "/repo/a.py".toList :=
  ⟨(diff_compile_gate ccReject clNone wfStateOpen [entryBad] [] []).2
      entryBad [] "SyntaxError(invalid)".toList rfl rfl,
   (diff_compile_gate ccReject clNone wfStateOpen [entryBad] [] []).1
      "/repo/a.py".toList (by decide)⟩

/-! ### C7: the shell-bridge pre-check in `communicate` -/

/-- Python `str.strip()`: drop whitespace from both ends. -/
def pyStrip (s : Str) : Str :=
  ((s.dropWhile Char.isWhitespace).reverse.dropWhile Char.isWhitespace).reverse

/-- The heredoc `SWEEnv._check_syntax` sends to the shell (swe_env.py:650):
the proposed input wrapped under `/bin/bash -n` (no-execute mode). -/
def bashNoExec (input : Str) : Str :=
  "/bin/bash -n <<'EOF'\n".toList ++ input ++ "\nEOF\n".toList

/-- Embeds `SWEEnv.communicate` (swe_env.py:655-682) against an abstract shell
`shell : command ↦ (output, returncode)` standing for `_communicate`.
The result pairs the observation with the list of commands actually sent
to the shell, in order. A non-`exit` input is first checked by running
`bashNoExec input`; when that returns a non-zero code its output is
returned and the input itself is never sent; `exit` terminates the
container and sends nothing. -/
def communicate (shell : Str → Str × Int) (input : Str) : Str × List Str :=
  if pyStrip input ≠ "exit".toList then
    let checked := shell (bashNoExec input)
    if checked.2 ≠ 0 then (checked.1, [bashNoExec input])
    else ((shell input).1, [bashNoExec input, input])
  else ([], [])

/-- C7: for every non-`exit` input whose `bash -n` check returns a non-zero
code, `communicate` returns the checker's output, and the only command sent
to the shell is the wrapped check — the input itself is never executed. -/
theorem communicate_precheck (shell : Str → Str × Int) (input : Str)
    (hexit : pyStrip input ≠ "exit".toList)
    (hfail : (shell (bashNoExec input)).2 ≠ 0) :
    communicate shell input =
      ((shell (bashNoExec input)).1, [bashNoExec input]) ∧
    input ∉ [bashNoExec input] := by
  constructor
  · simp only [communicate]
    rw [if_pos hexit, if_pos hfail]
  · intro hmem
    rw [List.mem_singleton] at hmem
    have hlen := congrArg List.length hmem
    simp [bashNoExec] at hlen
    omega

/-- A shell whose check run reports a syntactic failure on every command. -/
def shellRejecting : Str → Str × Int := fun _ => ("sh: unexpected EOF".toList, 2)

/-- C7 witness: the theorem applied to the unterminated input `if [` under
`shellRejecting`: the checker's output is returned and only the wrapped
check was sent. -/
theorem communicate_precheck_witness :
    communicate shellRejecting "if [".toList =
      ((shellRejecting (bashNoExec "if [".toList)).1,
       [bashNoExec "if [".toList]) ∧
    "if [".toList ∉ [bashNoExec "if [".toList] :=
  communicate_precheck shellRejecting "if [".toList (by decide) (by decide)

/-! ### C8: `get_submission` -/

/-- The opening submission sentinel. -/
def subOpen : Str := "<<SUBMISSION||".toList

/-- The closing submission sentinel. -/
def subClose : Str := "||SUBMISSION>>".toList

/-- The opening sentinel occurs at position `i` of `output`. -/
def openHere (output : Str) (i : Nat) : Bool := subOpen.isPrefixOf (output.drop i)

/-- The closing sentinel occurs at position `j` of `output`. -/
def closeHere (output : Str) (j : Nat) : Bool := subClose.isPrefixOf (output.drop j)

/-- Embeds `SWEEnv.get_submission` (swe_env.py:1985-2001):
`re.search(r"\<\<SUBMISSION\|\|(.*)\|\|SUBMISSION\>\>", output, re.DOTALL)`.
Under DOTALL with a greedy `(.*)`, the match starts at the leftmost opening
sentinel that is followed by a closing sentinel, and the capture extends to
the last closing sentinel; `None` when there is no match. -/
def get_submission (output : Str) : Option Str :=
  match (List.range (output.length + 1)).find? (fun i =>
      openHere output i &&
      (List.range (output.length + 1)).any (fun j =>
        decide (i + subOpen.length ≤ j) && closeHere output j)) with
  | none => none
  | some i =>
    match ((List.range (output.length + 1)).reverse).find? (fun j =>
        decide (i + subOpen.length ≤ j) && closeHere output j) with
    | none => none
    | some j =>
      some ((output.drop (i + subOpen.length)).take (j - (i + subOpen.length)))

/-- The submission gate at the end of `SWEEnv.step` (swe_env.py:491-499):
the episode ends (`done = True`) exactly when `get_submission` finds the
sentinels in the observation. -/
def step_ends_episode (observation : Str) : Bool :=
  (get_submission observation).isSome

/-- The scan `find?` returns the one element that satisfies the predicate. -/
theorem find?_eq_some_of_unique {α : Type} {p : α → Bool} {l : List α} {x : α}
    (hx : x ∈ l) (hpx : p x = true)
    (huniq : ∀ y ∈ l, p y = true → y = x) :
    l.find? p = some x := by
  induction l with
  | nil => simp at hx
  | cons a t ih =>
    by_cases hpa : p a = true
    · have ha : a = x := huniq a (by simp) hpa
      subst ha
      simp [List.find?_cons_of_pos, hpa]
    · have hxt : x ∈ t := by
        rcases List.mem_cons.mp hx with rfl | h
        · exact absurd hpx hpa
        · exact h
      rw [List.find?_cons_of_neg _ (by simpa using hpa)]
      exact ih hxt (fun y hy hpy => huniq y (by simp [hy]) hpy)

/-- Dropping past a pattern that sits at position `i`. -/
theorem drop_add_of_drop_eq {s t pat : Str} {i : Nat}
    (h : s.drop i = pat ++ t) : s.drop (i + pat.length) = t := by
  rw [← List.drop_drop, h, List.drop_left]

/-- The extractor `get_submission` finds something exactly when the output decomposes
around the two sentinels. -/
theorem get_submission_isSome_iff (output : Str) :
    (get_submission output).isSome = true ↔
    ∃ a m b : Str, output = a ++ subOpen ++ m ++ subClose ++ b := by
  constructor
  · intro h
    rw [get_submission] at h
    cases houter : (List.range (output.length + 1)).find? (fun i =>
        openHere output i &&
        (List.range (output.length + 1)).any (fun j =>
          decide (i + subOpen.length ≤ j) && closeHere output j)) with
    | none => rw [houter] at h; simp at h
    | some i =>
      have hPi := List.find?_some houter
      rw [Bool.and_eq_true] at hPi
      obtain ⟨hopen, hany⟩ := hPi
      cases hinner : ((List.range (output.length + 1)).reverse).find? (fun j =>
          decide (i + subOpen.length ≤ j) && closeHere output j) with
      | none =>
        obtain ⟨j0, hj0mem, hj0⟩ := List.any_eq_true.mp hany
        have hsome : (((List.range (output.length + 1)).reverse).find? (fun j =>
            decide (i + subOpen.length ≤ j) && closeHere output j)).isSome = true :=
          List.find?_isSome.mpr ⟨j0, List.mem_reverse.mpr hj0mem, hj0⟩
        rw [hinner] at hsome
        simp at hsome
      | some j =>
        have hQj := List.find?_some hinner
        simp only [Bool.and_eq_true, decide_eq_true_eq] at hQj
        obtain ⟨hij, hclose⟩ := hQj
        obtain ⟨t, ht⟩ := List.isPrefixOf_iff_prefix.mp hopen
        obtain ⟨u, hu⟩ := List.isPrefixOf_iff_prefix.mp hclose
        refine ⟨output.take i,
          (output.drop (i + subOpen.length)).take (j - (i + subOpen.length)), u, ?_⟩
        have hdi : output.drop (i + subOpen.length) = t :=
          drop_add_of_drop_eq ht.symm
        have htd : t.drop (j - (i + subOpen.length)) = subClose ++ u := by
          rw [← hdi, List.drop_drop]
          have harith : i + subOpen.length + (j - (i + subOpen.length)) = j := by
            omega
          rw [harith]
          exact hu.symm
        have hts : t = t.take (j - (i + subOpen.length)) ++ (subClose ++ u) := by
          conv_lhs => rw [← List.take_append_drop (j - (i + subOpen.length)) t]
          rw [htd]
        calc output = output.take i ++ output.drop i :=
              (List.take_append_drop i output).symm
          _ = output.take i ++ (subOpen ++ t) := by rw [← ht]
          _ = output.take i ++ (subOpen ++
              (t.take (j - (i + subOpen.length)) ++ (subClose ++ u))) := by
              rw [← hts]
          _ = output.take i ++ subOpen ++
              (output.drop (i + subOpen.length)).take (j - (i + subOpen.length)) ++
              subClose ++ u := by rw [hdi]; simp [List.append_assoc]
  · rintro ⟨a, m, b, rfl⟩
    have h14o : subOpen.length = 14 := by decide
    have h14c : subClose.length = 14 := by decide
    have hassoc : a ++ subOpen ++ m ++ subClose ++ b =
        a ++ (subOpen ++ (m ++ (subClose ++ b))) := by simp [List.append_assoc]
    have hopen0 : openHere (a ++ subOpen ++ m ++ subClose ++ b) a.length = true := by
      rw [openHere, hassoc, List.drop_left]
      exact List.isPrefixOf_iff_prefix.mpr (List.prefix_append _ _)
    have hassoc2 : a ++ subOpen ++ m ++ subClose ++ b =
        (a ++ subOpen ++ m) ++ (subClose ++ b) := by simp [List.append_assoc]
    have hlen3 : (a ++ subOpen ++ m).length = a.length + 14 + m.length := by
      simp [List.length_append, h14o]
      omega
    have hclose0 : closeHere (a ++ subOpen ++ m ++ subClose ++ b)
        (a.length + 14 + m.length) = true := by
      rw [closeHere, hassoc2, ← hlen3, List.drop_left]
      exact List.isPrefixOf_iff_prefix.mpr (List.prefix_append _ _)
    have hlentot : (a ++ subOpen ++ m ++ subClose ++ b).length =
        a.length + 14 + m.length + 14 + b.length := by
      simp [List.length_append, h14o, h14c]
      omega
    rw [get_submission]
    have hexists : ∃ i, i ∈ List.range ((a ++ subOpen ++ m ++ subClose ++ b).length + 1) ∧
        (openHere (a ++ subOpen ++ m ++ subClose ++ b) i &&
          (List.range ((a ++ subOpen ++ m ++ subClose ++ b).length + 1)).any (fun j =>
            decide (i + subOpen.length ≤ j) &&
              closeHere (a ++ subOpen ++ m ++ subClose ++ b) j)) = true := by
      refine ⟨a.length, List.mem_range.mpr (by omega), ?_⟩
      rw [Bool.and_eq_true]
      refine ⟨hopen0, List.any_eq_true.mpr ?_⟩
      refine ⟨a.length + 14 + m.length, List.mem_range.mpr (by omega), ?_⟩
      rw [Bool.and_eq_true, decide_eq_true_eq]
      exact ⟨by omega, hclose0⟩
    obtain ⟨i, hi⟩ := Option.isSome_iff_exists.mp (List.find?_isSome.mpr hexists)
    have hPi := List.find?_some hi
    rw [Bool.and_eq_true] at hPi
    obtain ⟨-, hany⟩ := hPi
    obtain ⟨j0, hj0mem, hj0⟩ := List.any_eq_true.mp hany
    have hexists2 : ∃ j ∈ (List.range ((a ++ subOpen ++ m ++ subClose ++ b).length + 1)).reverse,
        (decide (i + subOpen.length ≤ j) &&
          closeHere (a ++ subOpen ++ m ++ subClose ++ b) j) = true :=
      ⟨j0, List.mem_reverse.mpr hj0mem, hj0⟩
    obtain ⟨j, hj⟩ := Option.isSome_iff_exists.mp (List.find?_isSome.mpr hexists2)
    simp only [hi, hj, Option.isSome_some]

/-- When each sentinel occurs at exactly one position, `get_submission`
returns exactly the text between them. -/
theorem get_submission_exact (a m b : Str)
    (huo : ∀ i ≤ (a ++ subOpen ++ m ++ subClose ++ b).length,
      openHere (a ++ subOpen ++ m ++ subClose ++ b) i = true → i = a.length)
    (huc : ∀ j ≤ (a ++ subOpen ++ m ++ subClose ++ b).length,
      closeHere (a ++ subOpen ++ m ++ subClose ++ b) j = true →
      j = a.length + subOpen.length + m.length) :
    get_submission (a ++ subOpen ++ m ++ subClose ++ b) = some m := by
  have hlen2 : (a ++ subOpen).length = a.length + subOpen.length := by
    simp [List.length_append]
  have hlen3 : (a ++ subOpen ++ m).length =
      a.length + subOpen.length + m.length := by
    simp [List.length_append]
    omega
  have hlentot : (a ++ subOpen ++ m ++ subClose ++ b).length =
      a.length + subOpen.length + m.length + subClose.length + b.length := by
    simp [List.length_append]
    omega
  have hassoc : a ++ subOpen ++ m ++ subClose ++ b =
      a ++ (subOpen ++ (m ++ (subClose ++ b))) := by simp [List.append_assoc]
  have hopen0 : openHere (a ++ subOpen ++ m ++ subClose ++ b) a.length = true := by
    rw [openHere, hassoc, List.drop_left]
    exact List.isPrefixOf_iff_prefix.mpr (List.prefix_append _ _)
  have hassoc2 : a ++ subOpen ++ m ++ subClose ++ b =
      (a ++ subOpen ++ m) ++ (subClose ++ b) := by simp [List.append_assoc]
  have hclose0 : closeHere (a ++ subOpen ++ m ++ subClose ++ b)
      (a.length + subOpen.length + m.length) = true := by
    rw [closeHere, hassoc2, ← hlen3, List.drop_left]
    exact List.isPrefixOf_iff_prefix.mpr (List.prefix_append _ _)
  have houter : (List.range ((a ++ subOpen ++ m ++ subClose ++ b).length + 1)).find?
      (fun i => openHere (a ++ subOpen ++ m ++ subClose ++ b) i &&
        (List.range ((a ++ subOpen ++ m ++ subClose ++ b).length + 1)).any (fun j =>
          decide (i + subOpen.length ≤ j) &&
            closeHere (a ++ subOpen ++ m ++ subClose ++ b) j)) = some a.length := by
    apply find?_eq_some_of_unique
    · exact List.mem_range.mpr (by omega)
    · rw [Bool.and_eq_true]
      refine ⟨hopen0, List.any_eq_true.mpr ?_⟩
      refine ⟨a.length + subOpen.length + m.length, List.mem_range.mpr (by omega), ?_⟩
      rw [Bool.and_eq_true, decide_eq_true_eq]
      exact ⟨by omega, hclose0⟩
    · intro y hy hPy
      rw [Bool.and_eq_true] at hPy
      have hy' := List.mem_range.mp hy
      exact huo y (by omega) hPy.1
  have hinner : ((List.range ((a ++ subOpen ++ m ++ subClose ++ b).length + 1)).reverse).find?
      (fun j => decide (a.length + subOpen.length ≤ j) &&
        closeHere (a ++ subOpen ++ m ++ subClose ++ b) j) =
      some (a.length + subOpen.length + m.length) := by
    apply find?_eq_some_of_unique
    · rw [List.mem_reverse]
      exact List.mem_range.mpr (by omega)
    · rw [Bool.and_eq_true, decide_eq_true_eq]
      exact ⟨by omega, hclose0⟩
    · intro y hy hQy
      rw [Bool.and_eq_true, decide_eq_true_eq] at hQy
      have hy' := List.mem_range.mp (List.mem_reverse.mp hy)
      exact huc y (by omega) hQy.2
  rw [get_submission]
  simp only [houter, hinner]
  have hdrop : (a ++ subOpen ++ m ++ subClose ++ b).drop (a.length + subOpen.length) =
      m ++ (subClose ++ b) := by
    have h' : a ++ subOpen ++ m ++ subClose ++ b =
        (a ++ subOpen) ++ (m ++ (subClose ++ b)) := by simp [List.append_assoc]
    rw [h', ← hlen2, List.drop_left]
  rw [hdrop]
  have hsub : a.length + subOpen.length + m.length - (a.length + subOpen.length) =
      m.length := by omega
  rw [hsub, List.take_left]

/-- C8: `get_submission` returns `None` exactly when the output does not
contain an opening sentinel followed (anywhere later) by a closing
sentinel; when each sentinel occurs at exactly one position, it returns
exactly the text captured between them, which may span lines (DOTALL); and
whenever it returns `None`, the submission gate of `step` does not end the
episode. -/
theorem get_submission_regex_spec :
    (∀ output : Str, get_submission output = none ↔
      ¬ ∃ a m b : Str, output = a ++ subOpen ++ m ++ subClose ++ b) ∧
    (∀ a m b : Str,
      (∀ i ≤ (a ++ subOpen ++ m ++ subClose ++ b).length,
        openHere (a ++ subOpen ++ m ++ subClose ++ b) i = true → i = a.length) →
      (∀ j ≤ (a ++ subOpen ++ m ++ subClose ++ b).length,
        closeHere (a ++ subOpen ++ m ++ subClose ++ b) j = true →
        j = a.length + subOpen.length + m.length) →
      get_submission (a ++ subOpen ++ m ++ subClose ++ b) = some m) ∧
    (∀ output : Str, get_submission output = none →
      step_ends_episode output = false) := by
  refine ⟨?_, get_submission_exact, ?_⟩
  · intro output
    exact (Option.not_isSome_iff_eq_none.symm).trans
      (not_congr (get_submission_isSome_iff output))
  · intro output h
    rw [step_ends_episode, h]
    rfl

/-- C8 witness: a multi-line patch between uniquely-placed sentinels is
extracted exactly, newline included (DOTALL). -/
theorem get_submission_regex_spec_witness :
    get_submission ("ok\n".toList ++ subOpen ++ "line1\n+line2".toList ++
        subClose ++ "\nrc0".toList) = some "line1\n+line2".toList ∧
    '\n' ∈ "line1\n+line2".toList :=
  ⟨get_submission_regex_spec.2.1 "ok\n".toList "line1\n+line2".toList
      "\nrc0".toList (by decide) (by decide),
   by decide⟩

/-! ### C9: the interactive-command gate of the action dispatcher -/

/-- A character the fourth alternative `[^"\s]+` of the tokenizer regex
accepts: anything but a double quote or whitespace. -/
def wordChar (c : Char) : Bool := !(c = '"' : Bool) && !c.isWhitespace

/-- The scan of the tokenizer regex, with explicit fuel (every step
consumes at least one character, so `s.length + 1` units suffice).
At each position the alternatives are tried in order (quoted string,
bracket literal, triple-angle literal, bare word); on no match the scan
advances one character. -/
def pyFindallF : Nat → Str → List Str
  | 0, _ => []
  | _, [] => []
  | fuel + 1, c :: rest =>
    if c = '"' then
      if (rest.dropWhile (· ≠ '"')).isEmpty then pyFindallF fuel rest
      else ('"' :: rest.takeWhile (· ≠ '"') ++ ['"']) ::
        pyFindallF fuel (rest.dropWhile (· ≠ '"')).tail
    else if c = '[' then
      if (rest.dropWhile (· ≠ ']')).isEmpty then
        ((c :: rest).takeWhile wordChar) :: pyFindallF fuel (rest.dropWhile wordChar)
      else ('[' :: rest.takeWhile (· ≠ ']') ++ [']']) ::
        pyFindallF fuel (rest.dropWhile (· ≠ ']')).tail
    else if c = '<' then
      if rest.take 2 = "<<".toList then
        if ((rest.drop 2).dropWhile (· ≠ '>')).take 3 = ">>>".toList then
          ("<<<".toList ++ (rest.drop 2).takeWhile (· ≠ '>') ++ ">>>".toList) ::
            pyFindallF fuel (((rest.drop 2).dropWhile (· ≠ '>')).drop 3)
        else ((c :: rest).takeWhile wordChar) :: pyFindallF fuel (rest.dropWhile wordChar)
      else ((c :: rest).takeWhile wordChar) :: pyFindallF fuel (rest.dropWhile wordChar)
    else if c.isWhitespace then
      pyFindallF fuel rest
    else
      ((c :: rest).takeWhile wordChar) :: pyFindallF fuel (rest.dropWhile wordChar)

/-- The tokenizer of `SWEEnv.parse_command` (swe_env.py:1897):
`re.findall(r'(?:"[^"]*"|\[[^]]*\]|<<<[^>]*>>>|[^"\s]+)', command)`. -/
def pyFindall (s : Str) : List Str := pyFindallF (s.length + 1) s

/-- Argument post-processing of `parse_command` (swe_env.py:1900-1907):
strip surrounding double quotes or `<<<`/`>>>` delimiters. -/
def unquoteArg (arg : Str) : Str :=
  if "\"".toList.isPrefixOf arg && "\"".toList.isSuffixOf arg then
    (arg.drop 1).take (arg.length - 2)
  else if "<<<".toList.isPrefixOf arg && ">>>".toList.isSuffixOf arg then
    (arg.drop 3).take (arg.length - 6)
  else arg

/-- Embeds `SWEEnv.parse_command` (swe_env.py:1886-1908): tokenize and split into
the function name and its arguments; `none` models the `IndexError` raised
by `parts[0]` on an input with no token. -/
def parse_command (command : Str) : Option (Str × List Str) :=
  match pyFindall command with
  | [] => none
  | fn_name :: parts => some (fn_name, parts.map unquoteArg)

/-- The verbs registered in the dispatcher's `funcs` list
(swe_env.py:1919-1940). -/
def fn_names : List Str :=
  ["list_dirs_recursive".toList, "close_file".toList, "create_file".toList,
   "open_file".toList, "search_dir".toList, "find_function".toList,
   "find_class".toList, "search_file".toList, "get_cwd".toList,
   "delete_file".toList, "submit".toList, "no_op".toList, "scroll_up".toList,
   "scroll_down".toList, "scroll_to_line".toList, "find_file".toList]

/-- The rejection observation for interactive commands (swe_env.py:1914,1917). -/
def interactive_msg : Str := "Interactive Commands are not allowed".toList

/-- Where the dispatcher routes one action. -/
inductive Dispatch where
  | reject (msg : Str)
  | diff (raw : Str)
  | toolbox (fn : Str) (args : List Str)
  | shell (cmd : Str)
  | malformed
  deriving DecidableEq

/-- The routing head of `SWEEnv.parse_command_to_function`
(swe_env.py:1910-1959): parse the action; refuse `vim`/`nano` and any
`python` action spanning more than one non-empty line; route `edit_file`
to the diff engine, registered verbs to the toolbox, and anything else to
the shell as `fn_name + " " + " ".join(args)`. -/
def parse_command_to_function (command_string : Str) : Dispatch :=
  match parse_command command_string with
  | none => .malformed
  | some (fn_name, args) =>
    if fn_name = "vim".toList ∨ fn_name = "nano".toList then
      .reject interactive_msg
    else if fn_name = "python".toList ∧
        ((splitlines command_string).filter (fun line => line ≠ [])).length ≠ 1 then
      .reject interactive_msg
    else if fn_name = "edit_file".toList then .diff command_string
    else if fn_name ∈ fn_names then .toolbox fn_name args
    else .shell (fn_name ++ " ".toList ++ List.intercalate " ".toList args)

/-- C9: an action whose parsed verb is `vim` or `nano`, and a `python`
action spanning more than one non-empty line, are answered with
`Interactive Commands are not allowed` and are not forwarded anywhere —
in particular not to the shell. -/
theorem interactive_rejected (cmd : Str) :
    (((pyFindall cmd).head? = some "vim".toList ∨
      (pyFindall cmd).head? = some "nano".toList) →
      parse_command_to_function cmd = .reject interactive_msg) ∧
    ((pyFindall cmd).head? = some "python".toList →
      1 < ((splitlines cmd).filter (fun line => line ≠ [])).length →
      parse_command_to_function cmd = .reject interactive_msg) := by
  constructor
  · intro h
    cases hf : pyFindall cmd with
    | nil => rw [hf] at h; simp at h
    | cons f parts =>
      rw [hf] at h
      simp only [List.head?_cons, Option.some.injEq] at h
      rcases h with rfl | rfl
      · simp [parse_command_to_function, parse_command, hf]
      · simp [parse_command_to_function, parse_command, hf]
  · intro h hn
    cases hf : pyFindall cmd with
    | nil => rw [hf] at h; simp at h
    | cons f parts =>
      rw [hf] at h
      simp only [List.head?_cons, Option.some.injEq] at h
      subst h
      simp only [ne_eq, decide_not] at hn
      simp [parse_command_to_function, parse_command, hf]
      intro hlen
      exact absurd hlen (by omega)

/-- C9 witness: the theorem applied to the concrete actions `vim file.py`
and `python\nx=1\ny=2`. -/
theorem interactive_rejected_witness :
    parse_command_to_function "vim file.py".toList = .reject interactive_msg ∧
    parse_command_to_function "python\nx=1\ny=2".toList =
      .reject interactive_msg :=
  ⟨(interactive_rejected "vim file.py".toList).1 (by decide),
   (interactive_rejected "python\nx=1\ny=2".toList).2 (by decide) (by decide)⟩

end SweEnv

